import Mathlib

/-!
Shallow embedding of the iroh-examples tracker protocol layer:

* `src/content-tracker/iroh-content-tracker/src/lib.rs` — the message model
  (`AnnounceKind`, `Announce`, `QueryFlags`, `Query`, `QueryResponse`,
  `Request`, `Response`), its postcard binary encoding (derived from the
  struct/variant order of the source types), and the `announce`/`query`
  exchange functions.
* `src/content-discovery/iroh-mainline-content-discovery-cli/src/args.rs` —
  the `ContentArg` content specifier and its resolution functions.

External library types are embedded by their serialized shape: a hash or a
node id is its 32-byte representation; a Rust `BTreeSet` is its strictly
ascending list of elements (`Partial'` stands for the source variant name
`Partial`).
-/

namespace IrohTracker

/-- A single octet of the wire encoding. -/
abbrev Byte := Fin 256

/-- `iroh_bytes::Hash`: a 32-byte blake3 digest, embedded as its byte representation. -/
abbrev Hash := {l : List Byte // l.length = 32}

/-- `iroh_net::NodeId`: a 32-byte public key, embedded as its byte representation. -/
abbrev NodeId := {l : List Byte // l.length = 32}

/-- `iroh_bytes::BlobFormat`: a raw blob or a hash sequence. -/
inductive BlobFormat
  | Raw
  | HashSeq
deriving DecidableEq

/-- `iroh_bytes::HashAndFormat`: a content address, a hash together with its format. -/
structure HashAndFormat where
  hash : Hash
  format : BlobFormat
deriving DecidableEq

/-- Variant index of a `BlobFormat` (`Raw` = 0, `HashSeq` = 1). -/
def BlobFormat.idx : BlobFormat → Fin 2
  | .Raw => 0
  | .HashSeq => 1

/-- Sort key of a content address: hash bytes first, then the format index.
This is the structural (hash then format) order of the Rust `Ord` derivation
used by `BTreeSet<HashAndFormat>`. -/
def hafKey (a : HashAndFormat) : Lex (List Byte × Fin 2) :=
  toLex (a.hash.val, a.format.idx)

instance : LinearOrder HashAndFormat :=
  LinearOrder.lift' hafKey fun a b h => by
    have h' := toLex.injective h
    obtain ⟨h1, h2⟩ := Prod.ext_iff.mp h'
    obtain ⟨ah, af⟩ := a
    obtain ⟨bh, bf⟩ := b
    simp only [hafKey] at h1 h2
    have : ah = bh := Subtype.ext h1
    subst this
    cases af <;> cases bf <;> simp_all [BlobFormat.idx]

instance : IsAntisymm HashAndFormat (· < ·) :=
  ⟨fun _ _ h1 h2 => absurd h2 (lt_asymm h1)⟩

/-- `AnnounceKind` from the source: whether the peer claims some of the data
(`Partial'`, source name `Partial`) or all of it (`Complete`). -/
inductive AnnounceKind
  | Partial'
  | Complete
deriving DecidableEq

/-- `AnnounceKind::from_complete`. -/
def AnnounceKind.from_complete (complete : Bool) : AnnounceKind :=
  if complete then .Complete else .Partial'

/-- `Announce`: a peer's claim to hold blobs or sets of blobs. `content` is a
Rust `BTreeSet<HashAndFormat>`, embedded as its strictly ascending list of
elements. -/
structure Announce where
  host : NodeId
  content : List HashAndFormat
  kind : AnnounceKind
deriving DecidableEq

/-- `QueryFlags` from the source. -/
structure QueryFlags where
  complete : Bool
  verified : Bool
deriving DecidableEq

/-- `Query` from the source: one content address plus flags. -/
structure Query where
  content : HashAndFormat
  flags : QueryFlags
deriving DecidableEq

/-- `QueryResponse` from the source: the queried content and the hosts, in
tracker order. -/
structure QueryResponse where
  content : HashAndFormat
  hosts : List NodeId
deriving DecidableEq

/-- The `Request` union: `Announce` (variant 0) or `Query` (variant 1). -/
inductive Request
  | Announce (a : Announce)
  | Query (q : Query)
deriving DecidableEq

/-- The `Response` union: `QueryResponse` (variant 0) is its only variant. -/
inductive Response
  | QueryResponse (r : QueryResponse)
deriving DecidableEq

/-- The Rust `BTreeSet` invariant on the embedded element list: strictly
ascending in the structural (hash then format) order. -/
def SortedSet (l : List HashAndFormat) : Prop :=
  List.Pairwise (· < ·) l

/-- Constructibility of a `Request` value from the source data model: the
`content` field of an `Announce` is a `BTreeSet`, so its embedded list is
strictly ascending. -/
def Request.wf : Request → Prop
  | .Announce a => SortedSet a.content
  | .Query _ => True

/-- Ordered insertion into the embedded `BTreeSet` element list, mirroring
`BTreeSet::insert` (equal elements are not duplicated). -/
def btreeInsert (x : HashAndFormat) : List HashAndFormat → List HashAndFormat
  | [] => [x]
  | y :: ys =>
    if x < y then x :: y :: ys
    else if x = y then y :: ys
    else y :: btreeInsert x ys

/-- Collect a sequence of elements into the embedded `BTreeSet`, inserting
left to right as serde's `BTreeSet` deserializer and `FromIterator` do. -/
def btreeOfList (xs : List HashAndFormat) : List HashAndFormat :=
  xs.foldl (fun s x => btreeInsert x s) []

/-! ## Postcard wire encoding

Derived from the serde derives on the source types: structs are their fields
in declaration order, enums are a varint discriminant followed by the
variant payload, sequences are a varint length followed by the elements,
fixed 32-byte values are written raw, and booleans are one byte 0 or 1. -/

/-- LEB128 varint encoding, made structurally recursive with `fuel ≥ n`. -/
def encodeVarNatAux : Nat → Nat → List Byte
  | 0, n => [⟨n % 256, by omega⟩]
  | fuel + 1, n =>
    if h : n < 128 then [⟨n, by omega⟩]
    else ⟨n % 128 + 128, by omega⟩ :: encodeVarNatAux fuel (n / 128)

/-- LEB128 varint encoding of a natural number, as postcard writes lengths
and enum discriminants. -/
def encodeVarNat (n : Nat) : List Byte :=
  encodeVarNatAux n n

/-- LEB128 varint decoding: bytes with the high bit set continue the number. -/
def decodeVarNat : List Byte → Option (Nat × List Byte)
  | [] => none
  | b :: rest =>
    if b.val < 128 then some (b.val, rest)
    else
      match decodeVarNat rest with
      | none => none
      | some (n, r) => some (b.val - 128 + 128 * n, r)

/-- Read exactly `n` bytes from the front of the input. -/
def readBytes : Nat → List Byte → Option (List Byte × List Byte)
  | 0, l => some ([], l)
  | _ + 1, [] => none
  | n + 1, b :: l =>
    match readBytes n l with
    | none => none
    | some (xs, r) => some (b :: xs, r)

/-- Encode a 32-byte value (hash or node id): its raw bytes, no length prefix. -/
def encodeFixed32 (h : Hash) : List Byte :=
  h.val

/-- Decode a 32-byte value (hash or node id). -/
def decodeFixed32 (l : List Byte) : Option (Hash × List Byte) :=
  match readBytes 32 l with
  | none => none
  | some (xs, r) => if h : xs.length = 32 then some (⟨xs, h⟩, r) else none

/-- Encode a `BlobFormat` (`Raw` = 0, `HashSeq` = 1). -/
def encodeFormat : BlobFormat → List Byte
  | .Raw => [0]
  | .HashSeq => [1]

/-- Decode a `BlobFormat`; unknown discriminants are rejected. -/
def decodeFormat : List Byte → Option (BlobFormat × List Byte)
  | [] => none
  | b :: r =>
    if b.val = 0 then some (.Raw, r)
    else if b.val = 1 then some (.HashSeq, r)
    else none

/-- Encode an `AnnounceKind` (`Partial` = 0, `Complete` = 1). -/
def encodeKind : AnnounceKind → List Byte
  | .Partial' => [0]
  | .Complete => [1]

/-- Decode an `AnnounceKind`; unknown discriminants are rejected. -/
def decodeKind : List Byte → Option (AnnounceKind × List Byte)
  | [] => none
  | b :: r =>
    if b.val = 0 then some (.Partial', r)
    else if b.val = 1 then some (.Complete, r)
    else none

/-- Encode a boolean as one byte. -/
def encodeBool (b : Bool) : List Byte :=
  if b then [1] else [0]

/-- Decode a boolean; postcard rejects any byte other than 0 or 1. -/
def decodeBool : List Byte → Option (Bool × List Byte)
  | [] => none
  | b :: r =>
    if b.val = 0 then some (false, r)
    else if b.val = 1 then some (true, r)
    else none

/-- Encode a `HashAndFormat`: hash bytes then format. -/
def encodeHAF (x : HashAndFormat) : List Byte :=
  encodeFixed32 x.hash ++ encodeFormat x.format

/-- Decode a `HashAndFormat`. -/
def decodeHAF (l : List Byte) : Option (HashAndFormat × List Byte) :=
  match decodeFixed32 l with
  | none => none
  | some (h, r) =>
    match decodeFormat r with
    | none => none
    | some (f, r') => some (⟨h, f⟩, r')

/-- Encode a sequence: varint length, then the elements in order. -/
def encodeListWith (enc : α → List Byte) (l : List α) : List Byte :=
  encodeVarNat l.length ++ (l.map enc).flatten

/-- Decode exactly `n` consecutive elements. -/
def decodeCount (dec : List Byte → Option (α × List Byte)) :
    Nat → List Byte → Option (List α × List Byte)
  | 0, l => some ([], l)
  | n + 1, l =>
    match dec l with
    | none => none
    | some (x, r) =>
      match decodeCount dec n r with
      | none => none
      | some (xs, r') => some (x :: xs, r')

/-- Decode a sequence: varint length, then that many elements. -/
def decodeListWith (dec : List Byte → Option (α × List Byte)) (l : List Byte) :
    Option (List α × List Byte) :=
  match decodeVarNat l with
  | none => none
  | some (n, r) => decodeCount dec n r

/-- Encode the `content` set: its elements in ascending BTreeSet iteration
order. -/
def encodeSet (s : List HashAndFormat) : List Byte :=
  encodeListWith encodeHAF s

/-- Decode the `content` set: read the elements, then insert them one by one
as serde's `BTreeSet` deserializer does. -/
def decodeSet (l : List Byte) : Option (List HashAndFormat × List Byte) :=
  match decodeListWith decodeHAF l with
  | none => none
  | some (xs, r) => some (btreeOfList xs, r)

/-- Encode an `Announce`: host, content set, kind — field declaration order. -/
def encodeAnnounce (a : Announce) : List Byte :=
  encodeFixed32 a.host ++ encodeSet a.content ++ encodeKind a.kind

/-- Decode an `Announce`. -/
def decodeAnnounce (l : List Byte) : Option (Announce × List Byte) :=
  match decodeFixed32 l with
  | none => none
  | some (h, r) =>
    match decodeSet r with
    | none => none
    | some (c, r') =>
      match decodeKind r' with
      | none => none
      | some (k, r'') => some (⟨h, c, k⟩, r'')

/-- Encode `QueryFlags`: complete then verified. -/
def encodeFlags (f : QueryFlags) : List Byte :=
  encodeBool f.complete ++ encodeBool f.verified

/-- Decode `QueryFlags`. -/
def decodeFlags (l : List Byte) : Option (QueryFlags × List Byte) :=
  match decodeBool l with
  | none => none
  | some (c, r) =>
    match decodeBool r with
    | none => none
    | some (v, r') => some (⟨c, v⟩, r')

/-- Encode a `Query`: content then flags. -/
def encodeQuery (q : Query) : List Byte :=
  encodeHAF q.content ++ encodeFlags q.flags

/-- Decode a `Query`. -/
def decodeQuery (l : List Byte) : Option (Query × List Byte) :=
  match decodeHAF l with
  | none => none
  | some (c, r) =>
    match decodeFlags r with
    | none => none
    | some (f, r') => some (⟨c, f⟩, r')

/-- Encode a `QueryResponse`: content, then the hosts in sequence order. -/
def encodeQueryResponse (q : QueryResponse) : List Byte :=
  encodeHAF q.content ++ encodeListWith encodeFixed32 q.hosts

/-- Decode a `QueryResponse`; the hosts come back in wire order. -/
def decodeQueryResponse (l : List Byte) : Option (QueryResponse × List Byte) :=
  match decodeHAF l with
  | none => none
  | some (c, r) =>
    match decodeListWith decodeFixed32 r with
    | none => none
    | some (hs, r') => some (⟨c, hs⟩, r')

/-- Encode a `Request`: varint variant discriminant (`Announce` = 0,
`Query` = 1), then the payload. -/
def encodeRequest : Request → List Byte
  | .Announce a => encodeVarNat 0 ++ encodeAnnounce a
  | .Query q => encodeVarNat 1 ++ encodeQuery q

/-- Decode a `Request` from the front of the input, returning the remainder. -/
def decodeRequestA (l : List Byte) : Option (Request × List Byte) :=
  match decodeVarNat l with
  | some (0, r) =>
    match decodeAnnounce r with
    | none => none
    | some (a, r') => some (.Announce a, r')
  | some (1, r) =>
    match decodeQuery r with
    | none => none
    | some (q, r') => some (.Query q, r')
  | _ => none

/-- Encode a `Response`: varint variant discriminant (`QueryResponse` = 0),
then the payload. -/
def encodeResponse : Response → List Byte
  | .QueryResponse q => encodeVarNat 0 ++ encodeQueryResponse q

/-- Decode a `Response` from the front of the input, returning the remainder. -/
def decodeResponseA (l : List Byte) : Option (Response × List Byte) :=
  match decodeVarNat l with
  | some (0, r) =>
    match decodeQueryResponse r with
    | none => none
    | some (q, r') => some (.QueryResponse q, r')
  | _ => none

/-- `postcard::from_bytes` for `Request`: decode from the front, ignore any
remainder. -/
def postcardDecodeRequest (l : List Byte) : Option Request :=
  (decodeRequestA l).map (·.1)

/-- `postcard::from_bytes` for `Response`: decode from the front, ignore any
remainder. -/
def postcardDecodeResponse (l : List Byte) : Option Response :=
  (decodeResponseA l).map (·.1)

/-! ## Tracker exchange client

`announce` and `query` from `lib.rs`, embedded over an explicit `World` of
transport outcomes: each fallible transport step (connect, open_bi, the
postcard encode, write_all, finish) is given its success bit, and the bytes
the tracker streams back are given as a list. The straight-line body of the
source functions becomes a function from a `World` to the produced event
trace and result. -/

/-- Bytes of an ASCII string literal, as Rust's `b"..."`. -/
def strBytes (s : String) : List Byte :=
  s.toList.map fun c => ⟨c.toNat % 256, by omega⟩

/-- `TRACKER_ALPN`: the ALPN string for this protocol. -/
def TRACKER_ALPN : List Byte :=
  strBytes "n0/tracker/1"

/-- `REQUEST_SIZE_LIMIT`: maximum size of a request (and of a read response). -/
def REQUEST_SIZE_LIMIT : Nat :=
  1024 * 16

/-- The error cases of one exchange, one per fallible step of the source
functions (`decoding` covers the postcard decode in `query`). -/
inductive ClientError
  | connect
  | openBi
  | encoding
  | write
  | finish
  | tooLarge
  | decoding
deriving DecidableEq

/-- Modelled from the spec: the transport's `read_to_end(size_limit)` used by
both source functions is not under `src/`; per the spec it reads the stream
to its end and fails — rather than truncating — when more than `size_limit`
bytes arrive. -/
def read_to_end (sizeLimit : Nat) (stream : List Byte) : Except ClientError (List Byte) :=
  if stream.length > sizeLimit then .error .tooLarge else .ok stream

/-- The observable transport actions of one exchange, in the order they are
issued. -/
inductive TrackerEvent
  | connect (alpn : List Byte) (tracker : NodeId)
  | openBi
  | write (bytes : List Byte)
  | finishSend
  | read (sizeLimit : Nat)
deriving DecidableEq

/-- Outcome of each fallible transport step of one call, plus the bytes the
tracker streams back on the receive side. -/
structure World where
  connectOk : Bool
  openBiOk : Bool
  encodeOk : Bool
  writeOk : Bool
  finishOk : Bool
  response : List Byte

/-- The shared body of `announce` and `query`: connect with `TRACKER_ALPN`,
open one bidirectional stream, postcard-encode the request, write it all,
finish (half-close) the send side, then read the response up to
`REQUEST_SIZE_LIMIT`. Returns the event trace and the read bytes or the
first error. -/
def runExchange (w : World) (tracker : NodeId) (req : Request) :
    List TrackerEvent × Except ClientError (List Byte) :=
  if w.connectOk then
    if w.openBiOk then
      if w.encodeOk then
        let bytes := encodeRequest req
        if w.writeOk then
          if w.finishOk then
            match read_to_end REQUEST_SIZE_LIMIT w.response with
            | .error e =>
              ([.connect TRACKER_ALPN tracker, .openBi, .write bytes, .finishSend,
                .read REQUEST_SIZE_LIMIT], .error e)
            | .ok resp =>
              ([.connect TRACKER_ALPN tracker, .openBi, .write bytes, .finishSend,
                .read REQUEST_SIZE_LIMIT], .ok resp)
          else
            ([.connect TRACKER_ALPN tracker, .openBi, .write bytes, .finishSend],
             .error .finish)
        else
          ([.connect TRACKER_ALPN tracker, .openBi, .write bytes], .error .write)
      else
        ([.connect TRACKER_ALPN tracker, .openBi], .error .encoding)
    else
      ([.connect TRACKER_ALPN tracker], .error .openBi)
  else
    ([], .error .connect)

/-- `announce` from `lib.rs`: run the exchange with the request wrapped as
`Request::Announce`; the read bytes are discarded and success is unit. -/
def announce (w : World) (tracker : NodeId) (request : Announce) :
    Except ClientError Unit :=
  match (runExchange w tracker (.Announce request)).2 with
  | .error e => .error e
  | .ok _ => .ok ()

/-- `query` from `lib.rs`: run the exchange with the request wrapped as
`Request::Query`, postcard-decode the read bytes as a `Response`, and match
on the (single) variant. -/
def query (w : World) (tracker : NodeId) (request : Query) :
    Except ClientError QueryResponse :=
  match (runExchange w tracker (.Query request)).2 with
  | .error e => .error e
  | .ok bytes =>
    match postcardDecodeResponse bytes with
    | none => .error .decoding
    | some (.QueryResponse r) => .ok r

/-- All five transport steps of a `World` succeed. -/
def World.allOk (w : World) : Prop :=
  w.connectOk = true ∧ w.openBiOk = true ∧ w.encodeOk = true ∧
    w.writeOk = true ∧ w.finishOk = true

/-! ## Content specifiers (`args.rs`)

`ContentArg` and its resolution functions. The three string sub-parsers
(`Hash::from_str`, `HashAndFormat::from_str`, `BlobTicket::from_str`) live in
external crates, so `from_str` is parameterised over them; only the ordered
fallback between them is this repository's code. -/

/-- `iroh_net::ticket::BlobTicket`: a self-contained specifier carrying the
hosting node's identity and addresses plus the content hash and format. -/
structure BlobTicket where
  node : NodeId
  addresses : List (List Byte)
  hash : Hash
  format : BlobFormat

/-- `ContentArg` from `args.rs`: the three ways to specify content. -/
inductive ContentArg
  | Hash (h : Hash)
  | HashAndFormat (haf : HashAndFormat)
  | Ticket (t : BlobTicket)

/-- `HashAndFormat::raw`: a hash with the `Raw` format. -/
def HashAndFormat.raw (h : Hash) : HashAndFormat :=
  ⟨h, .Raw⟩

/-- `ContentArg::hash_and_format`: resolve a specifier to its content
address. -/
def ContentArg.hash_and_format : ContentArg → IrohTracker.HashAndFormat
  | .Hash h => IrohTracker.HashAndFormat.raw h
  | .HashAndFormat haf => haf
  | .Ticket t => ⟨t.hash, t.format⟩

/-- `ContentArg::host`: the hosting node, defined only for tickets. -/
def ContentArg.host : ContentArg → Option NodeId
  | .Hash _ => none
  | .HashAndFormat _ => none
  | .Ticket t => some t.node

/-- `ContentArg::from_str`: try the input as a bare hash, then as a
hash-and-format, then as a ticket, returning the first successful parse;
fail if none succeeds. The three sub-parsers are passed in as parameters. -/
def ContentArg.from_str (hashFromStr : String → Option IrohTracker.Hash)
    (hafFromStr : String → Option IrohTracker.HashAndFormat)
    (ticketFromStr : String → Option BlobTicket)
    (s : String) : Except String ContentArg :=
  match hashFromStr s with
  | some h => .ok (.Hash h)
  | none =>
    match hafFromStr s with
    | some haf => .ok (.HashAndFormat haf)
    | none =>
      match ticketFromStr s with
      | some t => .ok (.Ticket t)
      | none => .error "invalid hash and format"

/-! ## Sample values used by the witness theorems -/

/-- A 32-byte value all of whose bytes are `b`. -/
def sample32 (b : Byte) : Hash :=
  ⟨List.replicate 32 b, List.length_replicate 32 b⟩

/-- A sample content address with the given fill byte and the `Raw` format. -/
def sampleHAF (b : Byte) : HashAndFormat :=
  ⟨sample32 b, .Raw⟩

/-- A `World` in which every transport step succeeds and the tracker streams
back `resp`. -/
def okWorld (resp : List Byte) : World :=
  ⟨true, true, true, true, true, resp⟩

/-- A sample query used to drive the exchange in witnesses. -/
def sampleQuery : Query :=
  ⟨sampleHAF 3, ⟨true, false⟩⟩

/-- A sample query response whose hosts are deliberately not in ascending
order. -/
def sampleQueryResponse : QueryResponse :=
  ⟨sampleHAF 3, [sample32 2, sample32 1]⟩

/-- A sample announce with a single content address. -/
def sampleAnnounce : Announce :=
  ⟨sample32 7, [sampleHAF 3], .Partial'⟩

/-- A sample ticket. -/
def sampleTicket : BlobTicket :=
  ⟨sample32 9, [], sample32 4, .HashSeq⟩

/-- A `World` whose tracker streams back the encoding of
`sampleQueryResponse`. -/
def sampleRespWorld : World :=
  okWorld (encodeResponse (.QueryResponse sampleQueryResponse))

/-! ## Round-trip lemmas for the postcard codec -/

theorem decodeVarNat_encodeVarNatAux (fuel : Nat) :
    ∀ n : Nat, n ≤ fuel → ∀ rest : List Byte,
      decodeVarNat (encodeVarNatAux fuel n ++ rest) = some (n, rest) := by
  induction fuel with
  | zero =>
    intro n hn rest
    have : n = 0 := by omega
    subst this
    simp [encodeVarNatAux, decodeVarNat]
  | succ fuel ih =>
    intro n hn rest
    rw [encodeVarNatAux]
    split
    · next h128 =>
      simp [decodeVarNat, h128]
    · next h128 =>
      have hge : 128 ≤ n := by omega
      simp only [List.cons_append, decodeVarNat]
      rw [if_neg (show ¬(n % 128 + 128 < 128) by omega)]
      simp only [List.append_eq]
      rw [ih (n / 128) (by omega) rest]
      simp
      omega

theorem decodeVarNat_encode (n : Nat) (rest : List Byte) :
    decodeVarNat (encodeVarNat n ++ rest) = some (n, rest) :=
  decodeVarNat_encodeVarNatAux n n le_rfl rest

theorem readBytes_append (l rest : List Byte) :
    readBytes l.length (l ++ rest) = some (l, rest) := by
  induction l with
  | nil => simp [readBytes]
  | cons b l ih => simp [readBytes, ih]

theorem decodeFixed32_encode (h : Hash) (rest : List Byte) :
    decodeFixed32 (encodeFixed32 h ++ rest) = some (h, rest) := by
  have hr := readBytes_append h.val rest
  rw [h.prop] at hr
  simp [decodeFixed32, encodeFixed32, hr, h.prop]

theorem decodeFormat_encode (f : BlobFormat) (rest : List Byte) :
    decodeFormat (encodeFormat f ++ rest) = some (f, rest) := by
  cases f <;> rfl

theorem decodeKind_encode (k : AnnounceKind) (rest : List Byte) :
    decodeKind (encodeKind k ++ rest) = some (k, rest) := by
  cases k <;> rfl

theorem decodeBool_encode (b : Bool) (rest : List Byte) :
    decodeBool (encodeBool b ++ rest) = some (b, rest) := by
  cases b <;> rfl

theorem decodeHAF_encode (x : HashAndFormat) (rest : List Byte) :
    decodeHAF (encodeHAF x ++ rest) = some (x, rest) := by
  simp [decodeHAF, encodeHAF, List.append_assoc, decodeFixed32_encode,
    decodeFormat_encode]

theorem decodeCount_encode (enc : α → List Byte)
    (dec : List Byte → Option (α × List Byte))
    (H : ∀ (x : α) (rest : List Byte), dec (enc x ++ rest) = some (x, rest)) :
    ∀ (l : List α) (rest : List Byte),
      decodeCount dec l.length ((l.map enc).flatten ++ rest) = some (l, rest) := by
  intro l
  induction l with
  | nil => intro rest; simp [decodeCount]
  | cons x xs ih =>
    intro rest
    simp only [List.map_cons, List.flatten_cons, List.length_cons,
      List.append_assoc, decodeCount, H, ih]

theorem decodeListWith_encode (enc : α → List Byte)
    (dec : List Byte → Option (α × List Byte))
    (H : ∀ (x : α) (rest : List Byte), dec (enc x ++ rest) = some (x, rest))
    (l : List α) (rest : List Byte) :
    decodeListWith dec (encodeListWith enc l ++ rest) = some (l, rest) := by
  simp [decodeListWith, encodeListWith, List.append_assoc, decodeVarNat_encode,
    decodeCount_encode enc dec H]

/-! ## BTreeSet lemmas -/

theorem mem_btreeInsert (x y : HashAndFormat) (l : List HashAndFormat) :
    y ∈ btreeInsert x l ↔ y = x ∨ y ∈ l := by
  induction l with
  | nil => simp [btreeInsert]
  | cons z zs ih =>
    by_cases h1 : x < z
    · rw [btreeInsert, if_pos h1]
      simp [List.mem_cons]
    · by_cases h2 : x = z
      · rw [btreeInsert, if_neg h1, if_pos h2]
        subst h2
        simp only [List.mem_cons]
        tauto
      · rw [btreeInsert, if_neg h1, if_neg h2]
        simp only [List.mem_cons, ih]
        tauto

theorem pairwise_btreeInsert (x : HashAndFormat) {l : List HashAndFormat}
    (h : List.Pairwise (· < ·) l) :
    List.Pairwise (· < ·) (btreeInsert x l) := by
  induction l with
  | nil => simp [btreeInsert]
  | cons z zs ih =>
    rcases List.pairwise_cons.mp h with ⟨hz, hzs⟩
    by_cases hlt : x < z
    · rw [btreeInsert, if_pos hlt]
      refine List.pairwise_cons.mpr ⟨?_, h⟩
      intro a ha
      rcases List.mem_cons.mp ha with rfl | ha
      · exact hlt
      · exact lt_trans hlt (hz a ha)
    · by_cases heq : x = z
      · rw [btreeInsert, if_neg hlt, if_pos heq]
        exact h
      · rw [btreeInsert, if_neg hlt, if_neg heq]
        have hzx : z < x := by
          rcases lt_trichotomy x z with h1 | h1 | h1
          · exact absurd h1 hlt
          · exact absurd h1 heq
          · exact h1
        refine List.pairwise_cons.mpr ⟨?_, ih hzs⟩
        intro a ha
        rcases (mem_btreeInsert x a zs).mp ha with rfl | ha
        · exact hzx
        · exact hz a ha

theorem mem_foldl_btreeInsert (xs : List HashAndFormat) :
    ∀ (s : List HashAndFormat) (y : HashAndFormat),
      y ∈ xs.foldl (fun s x => btreeInsert x s) s ↔ y ∈ s ∨ y ∈ xs := by
  induction xs with
  | nil => intro s y; simp
  | cons x xs ih =>
    intro s y
    simp only [List.foldl_cons, ih, mem_btreeInsert, List.mem_cons]
    tauto

theorem pairwise_foldl_btreeInsert (xs : List HashAndFormat) :
    ∀ {s : List HashAndFormat}, List.Pairwise (· < ·) s →
      List.Pairwise (· < ·) (xs.foldl (fun s x => btreeInsert x s) s) := by
  induction xs with
  | nil => intro s h; simpa using h
  | cons x xs ih =>
    intro s h
    exact ih (pairwise_btreeInsert x h)

theorem mem_btreeOfList (xs : List HashAndFormat) (y : HashAndFormat) :
    y ∈ btreeOfList xs ↔ y ∈ xs := by
  simp [btreeOfList, mem_foldl_btreeInsert]

theorem pairwise_btreeOfList (xs : List HashAndFormat) :
    List.Pairwise (· < ·) (btreeOfList xs) :=
  pairwise_foldl_btreeInsert xs (by simp)

theorem nodup_btreeOfList (xs : List HashAndFormat) :
    (btreeOfList xs).Nodup :=
  (pairwise_btreeOfList xs).imp ne_of_lt

theorem btreeOfList_perm {xs ys : List HashAndFormat} (h : xs.Perm ys) :
    btreeOfList xs = btreeOfList ys := by
  refine List.eq_of_perm_of_sorted ?_ (pairwise_btreeOfList xs) (pairwise_btreeOfList ys)
  refine (List.perm_ext_iff_of_nodup (nodup_btreeOfList xs) (nodup_btreeOfList ys)).mpr ?_
  intro a
  rw [mem_btreeOfList, mem_btreeOfList, h.mem_iff]

theorem btreeOfList_sorted_id {l : List HashAndFormat}
    (h : List.Pairwise (· < ·) l) : btreeOfList l = l := by
  refine List.eq_of_perm_of_sorted ?_ (pairwise_btreeOfList l) h
  refine (List.perm_ext_iff_of_nodup (nodup_btreeOfList l) (h.imp ne_of_lt)).mpr ?_
  intro a
  rw [mem_btreeOfList]

theorem decodeSet_encode {s : List HashAndFormat} (hs : SortedSet s)
    (rest : List Byte) :
    decodeSet (encodeSet s ++ rest) = some (s, rest) := by
  simp [decodeSet, encodeSet,
    decodeListWith_encode encodeHAF decodeHAF decodeHAF_encode,
    btreeOfList_sorted_id hs]

theorem decodeAnnounce_encode {a : Announce} (ha : SortedSet a.content)
    (rest : List Byte) :
    decodeAnnounce (encodeAnnounce a ++ rest) = some (a, rest) := by
  simp [decodeAnnounce, encodeAnnounce, List.append_assoc, decodeFixed32_encode,
    decodeSet_encode ha, decodeKind_encode]

theorem decodeFlags_encode (f : QueryFlags) (rest : List Byte) :
    decodeFlags (encodeFlags f ++ rest) = some (f, rest) := by
  simp [decodeFlags, encodeFlags, List.append_assoc, decodeBool_encode]

theorem decodeQuery_encode (q : Query) (rest : List Byte) :
    decodeQuery (encodeQuery q ++ rest) = some (q, rest) := by
  simp [decodeQuery, encodeQuery, List.append_assoc, decodeHAF_encode,
    decodeFlags_encode]

theorem decodeQueryResponse_encode (q : QueryResponse) (rest : List Byte) :
    decodeQueryResponse (encodeQueryResponse q ++ rest) = some (q, rest) := by
  simp [decodeQueryResponse, encodeQueryResponse, List.append_assoc,
    decodeHAF_encode,
    decodeListWith_encode encodeFixed32 decodeFixed32 decodeFixed32_encode]

theorem decodeRequestA_encode {r : Request} (hr : r.wf) (rest : List Byte) :
    decodeRequestA (encodeRequest r ++ rest) = some (r, rest) := by
  cases r with
  | Announce a =>
    simp [decodeRequestA, encodeRequest, List.append_assoc, decodeVarNat_encode,
      decodeAnnounce_encode hr]
  | Query q =>
    simp [decodeRequestA, encodeRequest, List.append_assoc, decodeVarNat_encode,
      decodeQuery_encode]

theorem decodeResponseA_encode (r : Response) (rest : List Byte) :
    decodeResponseA (encodeResponse r ++ rest) = some (r, rest) := by
  cases r with
  | QueryResponse q =>
    simp [decodeResponseA, encodeResponse, List.append_assoc, decodeVarNat_encode,
      decodeQueryResponse_encode]

theorem postcardDecodeResponse_encode (r : Response) :
    postcardDecodeResponse (encodeResponse r) = some r := by
  have h := decodeResponseA_encode r []
  rw [List.append_nil] at h
  simp [postcardDecodeResponse, h]

/-! ## Exchange lemmas -/

theorem runExchange_ok {w : World} (hok : w.allOk)
    (hlen : w.response.length ≤ REQUEST_SIZE_LIMIT) (tracker : NodeId)
    (req : Request) :
    runExchange w tracker req =
      ([.connect TRACKER_ALPN tracker, .openBi, .write (encodeRequest req),
        .finishSend, .read REQUEST_SIZE_LIMIT], .ok w.response) := by
  obtain ⟨h1, h2, h3, h4, h5⟩ := hok
  simp [runExchange, read_to_end, h1, h2, h3, h4, h5, Nat.not_lt.mpr hlen]

/-! ## Claim theorems -/

/-- C1: decoding the binary encoding of any value constructible from the
Request/Response data model yields the value back, `decode(encode(x)) = x`;
equality of the whole value in particular preserves an Announce's `kind`
exactly. A `Request` is constructible when its `content` field, a `BTreeSet`,
is a strictly ascending list. -/
theorem request_response_encode_roundtrip :
    (∀ r : Request, r.wf → postcardDecodeRequest (encodeRequest r) = some r) ∧
    (∀ r : Response, postcardDecodeResponse (encodeResponse r) = some r) := by
  constructor
  · intro r hr
    have h := decodeRequestA_encode hr []
    rw [List.append_nil] at h
    simp [postcardDecodeRequest, h]
  · exact postcardDecodeResponse_encode

/-- Witness for C1: a concrete `Announce` request round-trips. -/
theorem request_response_encode_roundtrip_witness :
    postcardDecodeRequest (encodeRequest (.Announce sampleAnnounce)) =
      some (.Announce sampleAnnounce) :=
  request_response_encode_roundtrip.1 (.Announce sampleAnnounce)
    (by simp [Request.wf, SortedSet, sampleAnnounce])

/-- C2: `ContentArg::from_str` attempts bare `Hash`, then `HashAndFormat`,
then `Ticket`, in that fixed order, returning the first successful parse —
so a string valid as more than one form resolves to the earliest matching
form — and fails with the parse error when none succeeds. -/
theorem from_str_precedence (hashFromStr : String → Option Hash)
    (hafFromStr : String → Option HashAndFormat)
    (ticketFromStr : String → Option BlobTicket) (s : String) :
    (∀ h, hashFromStr s = some h →
      ContentArg.from_str hashFromStr hafFromStr ticketFromStr s =
        .ok (.Hash h)) ∧
    (hashFromStr s = none → ∀ haf, hafFromStr s = some haf →
      ContentArg.from_str hashFromStr hafFromStr ticketFromStr s =
        .ok (.HashAndFormat haf)) ∧
    (hashFromStr s = none → hafFromStr s = none →
      ∀ t, ticketFromStr s = some t →
      ContentArg.from_str hashFromStr hafFromStr ticketFromStr s =
        .ok (.Ticket t)) ∧
    (hashFromStr s = none → hafFromStr s = none → ticketFromStr s = none →
      ContentArg.from_str hashFromStr hafFromStr ticketFromStr s =
        .error "invalid hash and format") := by
  refine ⟨?_, ?_, ?_, ?_⟩ <;> intros <;> simp_all [ContentArg.from_str]

/-- Witness for C2: with a hash parser that succeeds, the other parsers are
never consulted, and with only the ticket parser succeeding the ticket wins. -/
theorem from_str_precedence_witness :
    ContentArg.from_str (fun _ => some (sample32 5)) (fun _ => some (sampleHAF 6))
        (fun _ => none) "x" = .ok (.Hash (sample32 5)) ∧
    ContentArg.from_str (fun _ => none) (fun _ => none)
        (fun _ => some sampleTicket) "x" = .ok (.Ticket sampleTicket) :=
  ⟨(from_str_precedence _ _ _ "x").1 (sample32 5) rfl,
   (from_str_precedence _ _ _ "x").2.2.1 rfl rfl sampleTicket rfl⟩

/-- C3: resolving a content specifier's address is total and deterministic:
a bare hash resolves to `(hash, Raw)`, a hash-and-format to itself, and a
ticket to `(ticket.hash, ticket.format)`. -/
theorem hash_and_format_resolution :
    (∀ h : Hash, (ContentArg.Hash h).hash_and_format = ⟨h, .Raw⟩) ∧
    (∀ haf : HashAndFormat,
      (ContentArg.HashAndFormat haf).hash_and_format = haf) ∧
    (∀ t : BlobTicket,
      (ContentArg.Ticket t).hash_and_format = ⟨t.hash, t.format⟩) :=
  ⟨fun _ => rfl, fun _ => rfl, fun _ => rfl⟩

/-- C4: resolving a content specifier's host yields `some` exactly for a
ticket, in which case it is the ticket's embedded node identity; a bare hash
or a hash-and-format yields `none`. -/
theorem host_resolution :
    (∀ h : Hash, (ContentArg.Hash h).host = none) ∧
    (∀ haf : HashAndFormat, (ContentArg.HashAndFormat haf).host = none) ∧
    (∀ t : BlobTicket, (ContentArg.Ticket t).host = some t.node) :=
  ⟨fun _ => rfl, fun _ => rfl, fun _ => rfl⟩

/-- C5: the response read is capped at `REQUEST_SIZE_LIMIT` = 16 KiB = 16384
bytes in both `announce` and `query`; a response stream longer than the cap
makes the call fail with the too-large error instead of truncating. -/
theorem response_size_cap (w : World) (tracker : NodeId) (q : Query)
    (a : Announce) (hok : w.allOk)
    (hlen : w.response.length > REQUEST_SIZE_LIMIT) :
    REQUEST_SIZE_LIMIT = 16384 ∧
    query w tracker q = .error .tooLarge ∧
    announce w tracker a = .error .tooLarge := by
  obtain ⟨h1, h2, h3, h4, h5⟩ := hok
  refine ⟨rfl, ?_, ?_⟩ <;>
    simp [query, announce, runExchange, read_to_end, h1, h2, h3, h4, h5, hlen]

/-- Witness for C5: a 16385-byte response stream fails both calls. -/
theorem response_size_cap_witness :
    query (okWorld (List.replicate 16385 0)) (sample32 0) sampleQuery =
      .error .tooLarge ∧
    announce (okWorld (List.replicate 16385 0)) (sample32 0) sampleAnnounce =
      .error .tooLarge := by
  have h := response_size_cap (okWorld (List.replicate 16385 0)) (sample32 0)
    sampleQuery sampleAnnounce ⟨rfl, rfl, rfl, rfl, rfl⟩
    (by
      show (List.replicate 16385 (0 : Byte)).length > REQUEST_SIZE_LIMIT
      rw [List.length_replicate]
      decide)
  exact ⟨h.2.1, h.2.2⟩

/-- C6: a query that reaches the response-reading stage decodes the received
bytes as a `Response`; decode failure yields the protocol error, and a
successful decode returns the contained `QueryResponse` unchanged — in
particular bytes produced by the tracker as `encode(QueryResponse)` come
back as exactly that value, hosts in the exact tracker order. -/
theorem query_response_handling (w : World) (tracker : NodeId) (q : Query)
    (hok : w.allOk) (hlen : w.response.length ≤ REQUEST_SIZE_LIMIT) :
    (postcardDecodeResponse w.response = none →
      query w tracker q = .error .decoding) ∧
    (∀ qr : QueryResponse,
      postcardDecodeResponse w.response = some (.QueryResponse qr) →
      query w tracker q = .ok qr) ∧
    (∀ qr : QueryResponse, w.response = encodeResponse (.QueryResponse qr) →
      query w tracker q = .ok qr) := by
  have hrun := runExchange_ok hok hlen tracker (.Query q)
  refine ⟨?_, ?_, ?_⟩
  · intro hdec
    simp [query, hrun, hdec]
  · intro qr hdec
    simp [query, hrun, hdec]
  · intro qr henc
    have hdec : postcardDecodeResponse w.response = some (.QueryResponse qr) := by
      rw [henc, postcardDecodeResponse_encode]
    simp [query, hrun, hdec]

/-- Witness for C6: a tracker reply listing hosts in a deliberately
non-ascending order comes back in exactly that order. -/
theorem query_response_handling_witness :
    query sampleRespWorld (sample32 0) sampleQuery = .ok sampleQueryResponse :=
  (query_response_handling sampleRespWorld (sample32 0) sampleQuery
    ⟨rfl, rfl, rfl, rfl, rfl⟩ (by decide)).2.2 sampleQueryResponse rfl

/-- C7: an announce discards the bytes read back without decoding them — the
result does not depend on the response content, only on its length staying
within the cap — and returns unit success exactly when the connection,
stream, encoding, write, finish and read steps all succeed. -/
theorem announce_discards_response (w : World) (tracker : NodeId)
    (a : Announce) :
    (announce w tracker a = .ok () ↔
      (w.allOk ∧ w.response.length ≤ REQUEST_SIZE_LIMIT)) ∧
    (∀ resp2 : List Byte, resp2.length = w.response.length →
      announce {w with response := resp2} tracker a = announce w tracker a) := by
  constructor
  · constructor
    · intro hsucc
      cases h1 : w.connectOk with
      | false => simp [announce, runExchange, h1] at hsucc
      | true =>
      cases h2 : w.openBiOk with
      | false => simp [announce, runExchange, h1, h2] at hsucc
      | true =>
      cases h3 : w.encodeOk with
      | false => simp [announce, runExchange, h1, h2, h3] at hsucc
      | true =>
      cases h4 : w.writeOk with
      | false => simp [announce, runExchange, h1, h2, h3, h4] at hsucc
      | true =>
      cases h5 : w.finishOk with
      | false => simp [announce, runExchange, h1, h2, h3, h4, h5] at hsucc
      | true =>
      by_cases h6 : w.response.length ≤ REQUEST_SIZE_LIMIT
      · exact ⟨⟨h1, h2, h3, h4, h5⟩, h6⟩
      · simp [announce, runExchange, read_to_end, h1, h2, h3, h4, h5,
          Nat.not_le.mp h6] at hsucc
    · rintro ⟨hok, hlen⟩
      simp [announce, runExchange_ok hok hlen]
  · intro resp2 hlen2
    by_cases h1 : w.connectOk <;> by_cases h2 : w.openBiOk <;>
      by_cases h3 : w.encodeOk <;> by_cases h4 : w.writeOk <;>
      by_cases h5 : w.finishOk <;>
      simp [announce, runExchange, read_to_end, h1, h2, h3, h4, h5, hlen2]
    by_cases h6 : REQUEST_SIZE_LIMIT < w.response.length <;> simp [h6]

/-- Witness for C7: with every step succeeding and an empty response the
announce returns unit, and replacing the response by another of the same
length changes nothing. -/
theorem announce_discards_response_witness :
    announce (okWorld []) (sample32 0) sampleAnnounce = .ok () ∧
    announce {okWorld [] with response := []} (sample32 0) sampleAnnounce =
      announce (okWorld []) (sample32 0) sampleAnnounce :=
  ⟨(announce_discards_response (okWorld []) (sample32 0) sampleAnnounce).1.mpr
      ⟨⟨rfl, rfl, rfl, rfl, rfl⟩, by simp [okWorld, REQUEST_SIZE_LIMIT]⟩,
   (announce_discards_response (okWorld []) (sample32 0) sampleAnnounce).2 [] rfl⟩

/-- C8: every exchange (announce and query alike) performs, in order: connect
with the fixed protocol identifier `"n0/tracker/1"`, open one bidirectional
stream, write exactly the encoded `Request` bytes (no length prefix),
half-close the send side, and only then read the response. -/
theorem exchange_step_sequence (w : World) (tracker : NodeId) (req : Request)
    (hok : w.allOk) (hlen : w.response.length ≤ REQUEST_SIZE_LIMIT) :
    (runExchange w tracker req).1 =
      [.connect TRACKER_ALPN tracker, .openBi, .write (encodeRequest req),
       .finishSend, .read REQUEST_SIZE_LIMIT] ∧
    TRACKER_ALPN = strBytes "n0/tracker/1" :=
  ⟨by rw [runExchange_ok hok hlen], rfl⟩

/-- Witness for C8: the concrete trace of a successful query exchange. -/
theorem exchange_step_sequence_witness :
    (runExchange (okWorld []) (sample32 0) (.Query sampleQuery)).1 =
      [.connect TRACKER_ALPN (sample32 0), .openBi,
       .write (encodeRequest (.Query sampleQuery)), .finishSend,
       .read REQUEST_SIZE_LIMIT] :=
  (exchange_step_sequence (okWorld []) (sample32 0) (.Query sampleQuery)
    ⟨rfl, rfl, rfl, rfl, rfl⟩ (by simp [okWorld, REQUEST_SIZE_LIMIT])).1

/-- C9: the `content` collection of an `Announce` is a `BTreeSet`: collecting
any insertion sequence never keeps two equal content addresses, the
resulting iteration (and hence encoding) order is strictly ascending in the
structural hash-then-format order, and the result is independent of the
order in which the caller inserted the elements. -/
theorem btreeset_content_invariant (xs ys : List HashAndFormat)
    (hperm : xs.Perm ys) :
    btreeOfList xs = btreeOfList ys ∧
    List.Pairwise (· < ·) (btreeOfList xs) ∧
    (btreeOfList xs).Nodup ∧
    (∀ y, y ∈ btreeOfList xs ↔ y ∈ xs) :=
  ⟨btreeOfList_perm hperm, pairwise_btreeOfList xs, nodup_btreeOfList xs,
    mem_btreeOfList xs⟩

/-- Witness for C9: inserting two addresses in either order builds the same
set. -/
theorem btreeset_content_invariant_witness :
    btreeOfList [sampleHAF 1, sampleHAF 2] =
      btreeOfList [sampleHAF 2, sampleHAF 1] :=
  (btreeset_content_invariant [sampleHAF 1, sampleHAF 2]
    [sampleHAF 2, sampleHAF 1]
    (List.Perm.swap (sampleHAF 2) (sampleHAF 1) [])).1

/-- C10: the `Response` union has exactly one variant, and `query` matches on
it exhaustively with no error arm: every byte sequence that decodes
successfully as a `Response` makes `query` return `Ok` with the contained
`QueryResponse`; no reachable decoded value hits an unexpected-variant
error. -/
theorem response_single_variant (w : World) (tracker : NodeId) (q : Query)
    (hok : w.allOk) (hlen : w.response.length ≤ REQUEST_SIZE_LIMIT) :
    (∀ r : Response, ∃ qr, r = .QueryResponse qr) ∧
    (∀ r : Response, postcardDecodeResponse w.response = some r →
      ∃ qr, r = .QueryResponse qr ∧ query w tracker q = .ok qr) := by
  constructor
  · intro r
    cases r with
    | QueryResponse qr => exact ⟨qr, rfl⟩
  · intro r hdec
    cases r with
    | QueryResponse qr =>
      refine ⟨qr, rfl, ?_⟩
      simp [query, runExchange_ok hok hlen tracker (.Query q), hdec]

/-- Witness for C10: a concrete decodable response stream makes `query`
return `Ok`. -/
theorem response_single_variant_witness :
    ∃ qr, Response.QueryResponse sampleQueryResponse = .QueryResponse qr ∧
      query sampleRespWorld (sample32 0) sampleQuery = .ok qr :=
  (response_single_variant sampleRespWorld (sample32 0) sampleQuery
    ⟨rfl, rfl, rfl, rfl, rfl⟩ (by decide)).2
    (.QueryResponse sampleQueryResponse)
    (by
      have h := postcardDecodeResponse_encode (.QueryResponse sampleQueryResponse)
      simpa [sampleRespWorld, okWorld] using h)

end IrohTracker
